import Mathlib

/-!
Shallow embedding of the collaborative task board backend
(`routes/tasks.js`, `socket/socketHandler.js`, `models/Task.js`,
`models/Activity.js`): task records with edit-lock fields, the HTTP
mutation endpoints (update, smart-assign, reorder, start-edit, end-edit),
the socket broadcast handlers, the disconnect handler, and the periodic
stale-lock sweep.  User ids, task ids and connection ids are modelled as
naturals; timestamps as integers in milliseconds (JS `Date` arithmetic).
-/

namespace MernBoard

/-- The `status` enum of the Task schema: todo, in-progress, done. -/
inductive Status where
  | todo
  | inProgress
  | done
deriving DecidableEq, Repr

/-- The `priority` enum of the Task schema: low, medium, high. -/
inductive Priority where
  | low
  | medium
  | high
deriving DecidableEq, Repr

/-- A task document (Task schema in `models/Task.js`).  `isBeingEdited`,
`editedBy`, `editStartTime` are the lock fields (spec names them
`isLocked` / `lockedBy` / `lockAcquiredAt`). -/
structure Task where
  id : Nat
  title : String
  description : String
  status : Status
  priority : Priority
  assignedTo : Nat
  createdBy : Nat
  order : Int
  version : Nat
  isBeingEdited : Bool
  editedBy : Option Nat
  editStartTime : Option Int
  lastModifiedBy : Option Nat
deriving DecidableEq, Repr

/-- `const editTimeout = 5 * 60 * 1000` (milliseconds) in `routes/tasks.js`. -/
def editTimeout : Int := 5 * 60 * 1000

/-- `const staleTimeout = 5 * 60 * 1000` in `socket/socketHandler.js`. -/
def staleTimeout : Int := 5 * 60 * 1000

/-- JS `new Date() - task.editStartTime`; a `null` start time coerces to 0. -/
def lockAge (now : Int) (t : Task) : Int := now - (t.editStartTime.getD 0)

/-- Guard `task.isBeingEdited && task.editedBy && task.editedBy.toString()
!== req.user._id.toString()` shared by the update and start-edit routes. -/
def lockedByOther (t : Task) (userId : Nat) : Bool :=
  t.isBeingEdited &&
    (match t.editedBy with
     | some e => e != userId
     | none => false)

/-- Lines `task.isBeingEdited = true; task.editedBy = req.user._id;
task.editStartTime = new Date()` of the start-edit route. -/
def setLock (now : Int) (userId : Nat) (t : Task) : Task :=
  { t with isBeingEdited := true, editedBy := some userId, editStartTime := some now }

/-- Lines `task.isBeingEdited = false; task.editedBy = null;
task.editStartTime = null` shared by update, end-edit and the sweep. -/
def clearLock (t : Task) : Task :=
  { t with isBeingEdited := false, editedBy := none, editStartTime := none }

/-- Error outcomes of the task routes (HTTP 409 lock conflict, 400
validation / no candidates, 404). -/
inductive ApiError where
  | lockConflict
  | validationError
  | noCandidates
  | notFound
deriving DecidableEq, Repr

/-- `POST /:id/start-edit` on a found task: 409 if locked by another user
whose session is younger than the timeout, otherwise take the lock. -/
def startEdit (now : Int) (userId : Nat) (t : Task) : Except ApiError Task :=
  if lockedByOther t userId ∧ lockAge now t < editTimeout then
    .error .lockConflict
  else
    .ok (setLock now userId t)

/-- `POST /:id/end-edit` on a found task: clear the lock only when the
requester is the current holder, otherwise leave the task unchanged. -/
def endEdit (userId : Nat) (t : Task) : Task :=
  if t.editedBy = some userId then clearLock t else t

/-- Request body of `PUT /:id`: each field is optionally present.  The
route copies every present key onto the task (`Object.keys(updates)
.forEach`), excluding only `_id`, `createdAt` and `updatedAt`. -/
structure UpdatePayload where
  title : Option String := none
  description : Option String := none
  status : Option Status := none
  priority : Option Priority := none
  assignedTo : Option Nat := none
  createdBy : Option Nat := none
  order : Option Int := none
  version : Option Nat := none
  isBeingEdited : Option Bool := none
  editedBy : Option (Option Nat) := none
  editStartTime : Option (Option Int) := none

/-- The mass-assignment loop of `PUT /:id`: every key present in the body
overwrites the corresponding task field. -/
def applyUpdates (u : UpdatePayload) (t : Task) : Task :=
  { t with
    title := u.title.getD t.title
    description := u.description.getD t.description
    status := u.status.getD t.status
    priority := u.priority.getD t.priority
    assignedTo := u.assignedTo.getD t.assignedTo
    createdBy := u.createdBy.getD t.createdBy
    order := u.order.getD t.order
    version := u.version.getD t.version
    isBeingEdited := u.isBeingEdited.getD t.isBeingEdited
    editedBy := u.editedBy.getD t.editedBy
    editStartTime := u.editStartTime.getD t.editStartTime }

/-- Title-uniqueness re-check of `PUT /:id`: only when the body carries a
truthy title different from the current one, and some other task already
has the trimmed new title. -/
def titleConflict (otherTitles : List String) (u : UpdatePayload) (t : Task) : Bool :=
  match u.title with
  | some newTitle =>
      newTitle != "" && newTitle != t.title && otherTitles.contains newTitle.trim
  | none => false

/-- `PUT /:id` on a found task: 409 when locked by a fresh other-user
session, 400 on a duplicate title, otherwise mass-assign the body, stamp
`lastModifiedBy`, increment `version` and clear the lock. -/
def updateTask (now : Int) (userId : Nat) (otherTitles : List String)
    (u : UpdatePayload) (t : Task) : Except ApiError Task :=
  if lockedByOther t userId ∧ lockAge now t < editTimeout then
    .error .lockConflict
  else if titleConflict otherTitles u t then
    .error .validationError
  else
    let t1 := applyUpdates u t
    .ok (clearLock { t1 with lastModifiedBy := some userId, version := t1.version + 1 })

/-- `getTaskCounts` in `routes/tasks.js`: per user, the number of tasks
whose status is `todo` or `in-progress` assigned to that user (users
absent from the aggregation have count 0). -/
def getTaskCounts (tasks : List Task) (u : Nat) : Nat :=
  (tasks.filter (fun t =>
      t.assignedTo = u ∧ (t.status = Status.todo ∨ t.status = Status.inProgress))).length

/-- Body of the selection loop of `POST /:id/smart-assign`: starting from
`minTasks = Infinity, selectedUser = null` (the `none` accumulator), a
user replaces the accumulator only on a strictly smaller count. -/
def selectStep (load : Nat → Nat) (acc : Option (Nat × Nat)) (user : Nat) :
    Option (Nat × Nat) :=
  let c := load user
  match acc with
  | none => some (user, c)
  | some (u, m) => if c < m then some (user, c) else some (u, m)

/-- The `users.forEach` selection loop of `POST /:id/smart-assign`. -/
def selectAssignee (users : List Nat) (load : Nat → Nat) : Option (Nat × Nat) :=
  users.foldl (selectStep load) none

/-- Recursive form of the selection loop with the accumulator explicit,
used to reason about `selectAssignee`. -/
def firstMinAux (load : Nat → Nat) (u m : Nat) : List Nat → Nat × Nat
  | [] => (u, m)
  | v :: rest =>
      if load v < m then firstMinAux load v (load v) rest
      else firstMinAux load u m rest

/-- `POST /:id/smart-assign` on a found task: pick the least-loaded user
(400 when there are no users), then set `assignedTo`, stamp
`lastModifiedBy` and increment `version`.  No lock check is performed. -/
def smartAssign (userId : Nat) (users : List Nat) (load : Nat → Nat)
    (t : Task) : Except ApiError Task :=
  match selectAssignee users load with
  | none => .error .noCandidates
  | some (sel, _) =>
      .ok { t with assignedTo := sel, lastModifiedBy := some userId,
                   version := t.version + 1 }

/-- One element of the `POST /reorder` body: id, status and order. -/
structure ReorderItem where
  id : Nat
  status : Status
  order : Int
deriving DecidableEq, Repr

/-- One `updateOne` of the reorder `bulkWrite` applied to a single task:
set `status`, `order`, `lastModifiedBy` and `$inc` the version. -/
def reorderOne (userId : Nat) (item : ReorderItem) (t : Task) : Task :=
  if t.id = item.id then
    { t with status := item.status, order := item.order,
             lastModifiedBy := some userId, version := t.version + 1 }
  else t

/-- One `updateOne` of the reorder `bulkWrite` over the board. -/
def applyReorderItem (userId : Nat) (item : ReorderItem) (tasks : List Task) :
    List Task :=
  tasks.map (reorderOne userId item)

/-- The whole `bulkWrite` of `POST /reorder`: apply the items in order. -/
def reorderTasks (userId : Nat) (items : List ReorderItem) (tasks : List Task) :
    List Task :=
  items.foldl (fun ts item => applyReorderItem userId item ts) tasks

/-- `action` enum of the Activity schema. -/
inductive ActionKind where
  | create
  | update
  | delete
  | assign
  | move
  | statusChange
  | smartAssignKind
deriving DecidableEq, Repr

/-- An activity document (`models/Activity.js`).  `taskId` is an `Option`
because callers may pass `null`; the schema itself requires it. -/
structure ActivityRecord where
  action : ActionKind
  taskId : Option Nat
  userId : Nat
  description : String
deriving DecidableEq, Repr

/-- Mongoose `required: true` validation of the Activity schema for the
fields a caller can omit: `taskId` must be present and `description`
non-empty. -/
def activityValid (a : ActivityRecord) : Bool :=
  a.taskId.isSome && a.description != ""

/-- `logActivity` in `routes/tasks.js`: `activity.save()` appends the
record when it validates; a validation error is caught and swallowed, so
the log is returned unchanged and the caller never sees the failure. -/
def logActivity (log : List ActivityRecord) (a : ActivityRecord) :
    List ActivityRecord :=
  if activityValid a then log ++ [a] else log

/-- The activity record `POST /reorder` attempts to append: action
`move`, a null `taskId`, the requesting user, and a description string. -/
def reorderActivity (userId : Nat) (username : String) (n : Nat) : ActivityRecord :=
  { action := .move, taskId := none, userId := userId,
    description := username ++ " reordered " ++ toString n ++ " tasks" }

/-- `POST /reorder` end to end: run the bulk write, attempt the activity
log, and respond with success (`true`). -/
def reorderEndpoint (userId : Nat) (username : String) (items : List ReorderItem)
    (tasks : List Task) (log : List ActivityRecord) :
    List Task × List ActivityRecord × Bool :=
  let tasks1 := reorderTasks userId items tasks
  let log1 := logActivity log (reorderActivity userId username items.length)
  (tasks1, log1, true)

/-- The socket event vocabulary of `socket/socketHandler.js` (inbound
client events that are re-broadcast, plus the server-originated presence
events). -/
inductive SEvent where
  | taskCreated
  | taskUpdated
  | taskDeleted
  | taskMoved
  | taskAssigned
  | taskSmartAssigned
  | tasksReordered
  | newActivity
  | editStarted
  | editEnded
  | conflictDetected
  | conflictResolved
  | typingStart
  | typingStop
  | cursorPosition
  | userOnline
  | userOffline
deriving DecidableEq, Repr

/-- `socket.broadcast.emit(ev)`: deliver to every connected socket except
the sender. -/
def broadcastEmit (conns : List Nat) (sender : Nat) (e : SEvent) :
    List (Nat × SEvent) :=
  (conns.filter (fun c => c ≠ sender)).map (fun c => (c, e))

/-- `io.emit(ev)`: deliver to every connected socket, sender included. -/
def ioEmit (conns : List Nat) (e : SEvent) : List (Nat × SEvent) :=
  conns.map (fun c => (c, e))

/-- The inbound-event handlers of `socketHandler`: every handler calls
`socket.broadcast.emit` with the same event name, except
`conflict_detected`, whose handler calls `io.emit`. -/
def handleClientEvent (conns : List Nat) (sender : Nat) (e : SEvent) :
    List (Nat × SEvent) :=
  match e with
  | .conflictDetected => ioEmit conns .conflictDetected
  | ev => broadcastEmit conns sender ev

/-- Server-side socket state: the task board plus the `connectedUsers`
registry (user ids of the active connections). -/
structure SocketState where
  tasks : List Task
  connectedUsers : List Nat
deriving DecidableEq, Repr

/-- The `disconnect` handler: remove the user from `connectedUsers`, then
`socket.broadcast.emit` of `user_offline` and
of `edit_ended`.  The task documents are not
touched. -/
def handleDisconnect (s : SocketState) (userId : Nat) :
    SocketState × List (Nat × SEvent) :=
  let remaining := s.connectedUsers.filter (fun c => c ≠ userId)
  ({ tasks := s.tasks, connectedUsers := remaining },
   broadcastEmit remaining userId .userOffline ++
     broadcastEmit remaining userId .editEnded)

/-- Payload-carrying event emitted by the cleanup interval:
`io.emit` of `edit_session_expired` with the task id. -/
inductive Emitted where
  | editSessionExpired (taskId : Nat)
deriving DecidableEq, Repr

/-- Query filter of the cleanup interval: `isBeingEdited: true,
editStartTime: { $lt: staleTime }` with `staleTime = now - staleTimeout`
(a `null` start time matches no `$lt` Date comparison). -/
def isStale (now : Int) (t : Task) : Bool :=
  t.isBeingEdited &&
    (match t.editStartTime with
     | some ts => decide (ts < now - staleTimeout)
     | none => false)

/-- The cleanup `setInterval` body: find the stale tasks, clear their lock
fields with one `updateMany` on the same filter, and emit one
`edit_session_expired` per stale task found. -/
def sweep (now : Int) (tasks : List Task) : List Task × List Emitted :=
  (tasks.map (fun t => if isStale now t then clearLock t else t),
   (tasks.filter (isStale now)).map (fun t => .editSessionExpired t.id))

/-- `POST /` (create): a fresh task starts at schema defaults — status
`todo`, version 1, lock fields cleared, `lastModifiedBy` the creator. -/
def createTask (id : Nat) (title description : String)
    (assignedTo createdBy : Nat) (priority : Priority) (order : Int) : Task :=
  { id := id, title := title, description := description, status := .todo,
    priority := priority, assignedTo := assignedTo, createdBy := createdBy,
    order := order, version := 1, isBeingEdited := false, editedBy := none,
    editStartTime := none, lastModifiedBy := some createdBy }

/-- The mutating operations of the system, as requests against a board. -/
inductive Op where
  | create (id : Nat) (title description : String)
      (assignedTo createdBy : Nat) (priority : Priority) (order : Int)
  | update (now : Int) (userId taskId : Nat) (u : UpdatePayload)
  | smartAssignOp (userId taskId : Nat) (users : List Nat)
  | reorder (userId : Nat) (items : List ReorderItem)
  | startEditOp (now : Int) (userId taskId : Nat)
  | endEditOp (userId taskId : Nat)
  | sweepOp (now : Int)

/-- Apply a per-task request to the board: the matching task is replaced
by the successful result; a rejected request writes nothing. -/
def stepTask (taskId : Nat) (f : Task → Option Task) (board : List Task) :
    List Task :=
  board.map (fun t => if t.id = taskId then (f t).getD t else t)

/-- Titles of the other tasks (the `findOne` lookup excluding this id). -/
def otherTitles (board : List Task) (taskId : Nat) : List String :=
  (board.filter (fun t => t.id ≠ taskId)).map Task.title

/-- One request against the board. -/
def step (op : Op) (board : List Task) : List Task :=
  match op with
  | .create id title descr asg cb pr ord =>
      board ++ [createTask id title descr asg cb pr ord]
  | .update now userId taskId u =>
      stepTask taskId
        (fun t => (updateTask now userId (otherTitles board taskId) u t).toOption)
        board
  | .smartAssignOp userId taskId users =>
      stepTask taskId
        (fun t => (smartAssign userId users (getTaskCounts board) t).toOption)
        board
  | .reorder userId items => reorderTasks userId items board
  | .startEditOp now userId taskId =>
      stepTask taskId (fun t => (startEdit now userId t).toOption) board
  | .endEditOp userId taskId =>
      stepTask taskId (fun t => some (endEdit userId t)) board
  | .sweepOp now => (sweep now board).1

/-- A board reached from `board` by a sequence of requests. -/
def runOps (ops : List Op) (board : List Task) : List Task :=
  ops.foldl (fun b op => step op b) board

/-- Lock-field coherence: `isLocked=false ⇔ lockedBy=none ⇔
lockAcquiredAt=none` (spec §8), on the schema field names. -/
def lockCoherent (t : Task) : Prop :=
  (t.isBeingEdited = false ↔ t.editedBy = none) ∧
    (t.editedBy = none ↔ t.editStartTime = none)

instance (t : Task) : Decidable (lockCoherent t) := by
  unfold lockCoherent
  infer_instance

/-- A task locked by user 2 just now (time 0), used as concrete input. -/
def lockedTask : Task :=
  { id := 10, title := "Ship release", description := "", status := .todo,
    priority := .medium, assignedTo := 2, createdBy := 9, order := 0,
    version := 1, isBeingEdited := true, editedBy := some 2,
    editStartTime := some 0, lastModifiedBy := some 2 }

/-- An unlocked task with version 1 and creator 9, used as concrete input. -/
def plainTask : Task :=
  { id := 11, title := "Write docs", description := "", status := .todo,
    priority := .low, assignedTo := 3, createdBy := 9, order := 1,
    version := 1, isBeingEdited := false, editedBy := none,
    editStartTime := none, lastModifiedBy := some 9 }

/-- Load table of the spec example (A:2, B:0, C:1) with A=0, B=1, C=2;
a user missing from the table counts 0, mirroring the or-zero lookup. -/
def exampleLoad (u : Nat) : Nat :=
  (([(0, 2), (1, 0), (2, 1)] : List (Nat × Nat)).lookup u).getD 0

/-- Socket state where connection/user 1 holds the lock on `lockedTask1`
and users 1, 2, 3 are connected. -/
def lockedTask1 : Task :=
  { lockedTask with id := 12, title := "Fix login", editedBy := some 1 }

def discState : SocketState :=
  { tasks := [lockedTask1, plainTask], connectedUsers := [1, 2, 3] }

/-- A task whose lock is 301 seconds old at time 400000 (acquired at
99000 ms). -/
def staleTask : Task :=
  { lockedTask with id := 13, title := "Stale one", editStartTime := some 99000 }

/-- A task whose lock is 50 seconds old at time 400000 (acquired at
350000 ms). -/
def freshTask : Task :=
  { lockedTask with id := 14, title := "Fresh one", editStartTime := some 350000 }

/-- C1: start-edit succeeds and sets the lock fields to the requester when
the task is unlocked or already locked by the requester; it fails with
`LockConflict` when locked by a different user with lock age below 5
minutes; and with lock age at or above 5 minutes the lock is silently
reassigned to the requester. -/
theorem startEdit_spec (now : Int) (userId : Nat) (t : Task) :
    ((t.isBeingEdited = false ∨ t.editedBy = some userId) →
        startEdit now userId t = .ok (setLock now userId t))
  ∧ (∀ e ts, t.isBeingEdited = true → t.editedBy = some e → e ≠ userId →
        t.editStartTime = some ts →
        ((now - ts < editTimeout → startEdit now userId t = .error .lockConflict)
         ∧ (editTimeout ≤ now - ts →
              startEdit now userId t = .ok (setLock now userId t)))) := by
  constructor
  · intro h
    rcases h with h | h <;> simp [startEdit, lockedByOther, h]
  · intro e ts h1 h2 h3 h4
    constructor
    · intro hage
      simp [startEdit, lockedByOther, lockAge, h1, h2, h3, h4, hage]
    · intro hage
      simp [startEdit, lockedByOther, lockAge, h1, h2, h3, h4]
      omega

/-- C1 witness: all three branches at concrete inputs — fresh acquire on
an unlocked task, conflict against a 1-second-old foreign lock, steal of a
10-minute-old foreign lock. -/
theorem startEdit_spec_witness :
    startEdit 1000 1 plainTask = .ok (setLock 1000 1 plainTask)
  ∧ startEdit 1000 1 lockedTask = .error .lockConflict
  ∧ startEdit 600000 1 lockedTask = .ok (setLock 600000 1 lockedTask) :=
  ⟨(startEdit_spec 1000 1 plainTask).1 (Or.inl rfl),
   ((startEdit_spec 1000 1 lockedTask).2 2 0 rfl rfl (by decide) rfl).1 (by decide),
   ((startEdit_spec 600000 1 lockedTask).2 2 0 rfl rfl (by decide) rfl).2 (by decide)⟩

theorem except_toOption_some {α β : Type} (x : Except α β) (b : β) :
    x.toOption = some b ↔ x = .ok b := by
  cases x <;> simp [Except.toOption]

theorem updateTask_ok_eq (now : Int) (userId : Nat) (titles : List String)
    (u : UpdatePayload) (t t' : Task)
    (hok : updateTask now userId titles u t = .ok t') :
    t' = clearLock { applyUpdates u t with
                     lastModifiedBy := some userId,
                     version := (applyUpdates u t).version + 1 } := by
  unfold updateTask at hok
  split at hok
  · exact absurd hok (by simp)
  · split at hok
    · exact absurd hok (by simp)
    · exact (Except.ok.inj hok).symm

theorem startEdit_ok_eq (now : Int) (userId : Nat) (t t' : Task)
    (hok : startEdit now userId t = .ok t') : t' = setLock now userId t := by
  unfold startEdit at hok
  split at hok
  · exact absurd hok (by simp)
  · exact (Except.ok.inj hok).symm

theorem smartAssign_ok_eq (userId : Nat) (users : List Nat) (load : Nat → Nat)
    (t t' : Task) (hok : smartAssign userId users load t = .ok t') :
    ∃ sel, t' = { t with
                  assignedTo := sel,
                  lastModifiedBy := some userId,
                  version := t.version + 1 } := by
  unfold smartAssign at hok
  split at hok
  · exact absurd hok (by simp)
  · exact ⟨_, (Except.ok.inj hok).symm⟩

theorem foldl_selectStep (load : Nat → Nat) :
    ∀ (l : List Nat) (u m : Nat),
      List.foldl (selectStep load) (some (u, m)) l = some (firstMinAux load u m l) := by
  intro l
  induction l with
  | nil => intro u m; rfl
  | cons v rest ih =>
      intro u m
      simp only [List.foldl_cons, selectStep, firstMinAux]
      by_cases h : load v < m
      · simp only [if_pos h, ih]
      · simp only [if_neg h, ih]

theorem selectAssignee_cons (load : Nat → Nat) (u : Nat) (rest : List Nat) :
    selectAssignee (u :: rest) load = some (firstMinAux load u (load u) rest) := by
  simp only [selectAssignee, List.foldl_cons, selectStep]
  exact foldl_selectStep load rest u (load u)

theorem smartAssign_ok_of_nonempty (userId : Nat) (users : List Nat)
    (load : Nat → Nat) (t : Task) (h : users ≠ []) :
    ∃ t', smartAssign userId users load t = .ok t' := by
  have hsel : ∃ p, selectAssignee users load = some p := by
    match users with
    | [] => exact absurd rfl h
    | u :: rest => exact ⟨_, selectAssignee_cons load u rest⟩
  obtain ⟨⟨sel, m⟩, hp⟩ := hsel
  refine ⟨{ t with
            assignedTo := sel,
            lastModifiedBy := some userId,
            version := t.version + 1 }, ?_⟩
  rw [smartAssign, hp]

theorem firstMinAux_spec (load : Nat → Nat) :
    ∀ (l : List Nat) (u : Nat),
      (firstMinAux load u (load u) l).2 = load (firstMinAux load u (load u) l).1 ∧
      ((firstMinAux load u (load u) l).1 = u ∧ (∀ v ∈ l, load u ≤ load v)
       ∨ ∃ pre post, l = pre ++ (firstMinAux load u (load u) l).1 :: post
           ∧ load (firstMinAux load u (load u) l).1 < load u
           ∧ (∀ v ∈ pre, load (firstMinAux load u (load u) l).1 < load v)
           ∧ (∀ v ∈ post, load (firstMinAux load u (load u) l).1 ≤ load v)) := by
  intro l
  induction l with
  | nil =>
      intro u
      refine ⟨rfl, Or.inl ⟨rfl, ?_⟩⟩
      intro v hv
      exact absurd hv (List.not_mem_nil v)
  | cons v rest ih =>
      intro u
      by_cases h : load v < load u
      · have hunf : firstMinAux load u (load u) (v :: rest)
            = firstMinAux load v (load v) rest := by
          simp [firstMinAux, h]
        rw [hunf]
        rcases ih v with ⟨hload, hcase⟩
        refine ⟨hload, Or.inr ?_⟩
        rcases hcase with ⟨heq, hall⟩ | ⟨pre, post, hsplit, hlt, hpre, hpost⟩
        · refine ⟨[], rest, ?_, ?_, ?_, ?_⟩
          · simp [heq]
          · rw [heq]; exact h
          · intro x hx; exact absurd hx (List.not_mem_nil x)
          · intro x hx; rw [heq]; exact hall x hx
        · refine ⟨v :: pre, post, ?_, ?_, ?_, hpost⟩
          · rw [List.cons_append, ← hsplit]
          · exact lt_trans hlt h
          · intro x hx
            rcases List.mem_cons.mp hx with hx | hx
            · rw [hx]; exact hlt
            · exact hpre x hx
      · have hunf : firstMinAux load u (load u) (v :: rest)
            = firstMinAux load u (load u) rest := by
          simp [firstMinAux, h]
        rw [hunf]
        rcases ih u with ⟨hload, hcase⟩
        refine ⟨hload, ?_⟩
        rcases hcase with ⟨heq, hall⟩ | ⟨pre, post, hsplit, hlt, hpre, hpost⟩
        · refine Or.inl ⟨heq, ?_⟩
          intro x hx
          rcases List.mem_cons.mp hx with hx | hx
          · rw [hx]; exact Nat.le_of_not_lt h
          · exact hall x hx
        · refine Or.inr ⟨v :: pre, post, ?_, hlt, ?_, hpost⟩
          · rw [List.cons_append, ← hsplit]
          · intro x hx
            rcases List.mem_cons.mp hx with hx | hx
            · rw [hx]; exact lt_of_lt_of_le hlt (Nat.le_of_not_lt h)
            · exact hpre x hx

theorem lockCoherent_clearLock (t : Task) : lockCoherent (clearLock t) := by
  simp [lockCoherent, clearLock]

theorem lockCoherent_setLock (now : Int) (userId : Nat) (t : Task) :
    lockCoherent (setLock now userId t) := by
  simp [lockCoherent, setLock]

theorem lockCoherent_createTask (id : Nat) (title descr : String)
    (asg cb : Nat) (pr : Priority) (ord : Int) :
    lockCoherent (createTask id title descr asg cb pr ord) := by
  simp [lockCoherent, createTask]

theorem lockCoherent_endEdit (userId : Nat) (t : Task) (h : lockCoherent t) :
    lockCoherent (endEdit userId t) := by
  unfold endEdit
  split
  · exact lockCoherent_clearLock t
  · exact h

theorem lockCoherent_reorderOne (userId : Nat) (item : ReorderItem) (t : Task)
    (h : lockCoherent t) : lockCoherent (reorderOne userId item t) := by
  unfold reorderOne
  split
  · exact h
  · exact h

theorem lockCoherent_stepTask (taskId : Nat) (f : Task → Option Task)
    (board : List Task)
    (hf : ∀ t ∈ board, ∀ t', f t = some t' → lockCoherent t')
    (h : ∀ t ∈ board, lockCoherent t) :
    ∀ t' ∈ stepTask taskId f board, lockCoherent t' := by
  intro t' ht'
  simp only [stepTask, List.mem_map] at ht'
  obtain ⟨t, ht, heq⟩ := ht'
  by_cases hid : t.id = taskId
  · rw [if_pos hid] at heq
    cases hft : f t with
    | none => rw [hft] at heq; simp at heq; rw [← heq]; exact h t ht
    | some t2 => rw [hft] at heq; simp at heq; rw [← heq]; exact hf t ht t2 hft
  · rw [if_neg hid] at heq
    rw [← heq]
    exact h t ht

theorem step_preserves_lockCoherent (op : Op) (board : List Task)
    (h : ∀ t ∈ board, lockCoherent t) :
    ∀ t' ∈ step op board, lockCoherent t' := by
  match op with
  | .create id title descr asg cb pr ord =>
      intro t' ht'
      simp only [step, List.mem_append, List.mem_singleton] at ht'
      rcases ht' with ht' | ht'
      · exact h t' ht'
      · rw [ht']; exact lockCoherent_createTask id title descr asg cb pr ord
  | .update now userId taskId u =>
      refine lockCoherent_stepTask taskId _ board ?_ h
      intro t ht t2 ht2
      rw [except_toOption_some] at ht2
      rw [updateTask_ok_eq now userId (otherTitles board taskId) u t t2 ht2]
      exact lockCoherent_clearLock _
  | .smartAssignOp userId taskId users =>
      refine lockCoherent_stepTask taskId _ board ?_ h
      intro t ht t2 ht2
      rw [except_toOption_some] at ht2
      obtain ⟨sel, heq⟩ :=
        smartAssign_ok_eq userId users (getTaskCounts board) t t2 ht2
      rw [heq]
      rcases h t ht with ⟨h1, h2⟩
      exact ⟨h1, h2⟩
  | .reorder userId items =>
      simp only [step]
      induction items generalizing board with
      | nil => exact h
      | cons item rest ih =>
          simp only [reorderTasks, List.foldl_cons]
          have hb : ∀ t ∈ applyReorderItem userId item board, lockCoherent t := by
            intro t ht
            simp only [applyReorderItem, List.mem_map] at ht
            obtain ⟨t0, ht0, heq⟩ := ht
            rw [← heq]
            exact lockCoherent_reorderOne userId item t0 (h t0 ht0)
          exact ih _ hb
  | .startEditOp now userId taskId =>
      refine lockCoherent_stepTask taskId _ board ?_ h
      intro t ht t2 ht2
      rw [except_toOption_some] at ht2
      rw [startEdit_ok_eq now userId t t2 ht2]
      exact lockCoherent_setLock now userId t
  | .endEditOp userId taskId =>
      refine lockCoherent_stepTask taskId _ board ?_ h
      intro t ht t2 ht2
      rw [Option.some_inj] at ht2
      rw [← ht2]
      exact lockCoherent_endEdit userId t (h t ht)
  | .sweepOp now =>
      intro t' ht'
      simp only [step, sweep, List.mem_map] at ht'
      obtain ⟨t, ht, heq⟩ := ht'
      rw [← heq]
      split
      · exact lockCoherent_clearLock t
      · exact h t ht

theorem sweep_count_zero (now : Int) (i : Nat) :
    ∀ tasks : List Task, (∀ t ∈ tasks, t.id ≠ i) →
      ((sweep now tasks).2.count (Emitted.editSessionExpired i)) = 0 := by
  intro tasks
  induction tasks with
  | nil => intro _; rfl
  | cons hd rest ih =>
      intro hids
      have hrest : ∀ t ∈ rest, t.id ≠ i := fun t ht => hids t (List.mem_cons_of_mem hd ht)
      have hhd : hd.id ≠ i := hids hd (List.mem_cons_self hd rest)
      simp only [sweep, List.filter_cons]
      split
      · rw [List.map_cons, List.count_cons]
        have : (Emitted.editSessionExpired hd.id == Emitted.editSessionExpired i) = false := by
          simp [hhd]
        rw [this]
        simpa [sweep] using ih hrest
      · simpa [sweep] using ih hrest

theorem sweep_count_one (now : Int) :
    ∀ (tasks : List Task) (t : Task), t ∈ tasks → (tasks.map Task.id).Nodup →
      isStale now t = true →
      ((sweep now tasks).2.count (Emitted.editSessionExpired t.id)) = 1 := by
  intro tasks
  induction tasks with
  | nil => intro t ht; exact absurd ht (List.not_mem_nil t)
  | cons hd rest ih =>
      intro t ht hnd hstale
      rw [List.map_cons, List.nodup_cons] at hnd
      rcases hnd with ⟨hhd, hrestnd⟩
      rcases List.mem_cons.mp ht with heq | hmem
      · subst heq
        have hzero : (((List.filter (isStale now) rest).map
            (fun x => Emitted.editSessionExpired x.id)).count
              (Emitted.editSessionExpired t.id)) = 0 := by
          have hz := sweep_count_zero now t.id rest (fun t2 ht2 habs =>
            hhd (habs ▸ List.mem_map_of_mem Task.id ht2))
          simpa [sweep] using hz
        simp [sweep, List.filter_cons, hstale, List.count_cons, hzero]
      · have hne : hd.id ≠ t.id := fun habs =>
          hhd (habs ▸ List.mem_map_of_mem Task.id hmem)
        have hone := ih t hmem hrestnd hstale
        simp only [sweep] at hone
        by_cases hs : isStale now hd
        · simp [sweep, List.filter_cons, hs, List.count_cons, hne, hone]
        · simp [sweep, List.filter_cons, hs, hone]

/-- C2 counterexample: `lockedTask` is locked by user 2 with lock age 0 (a
live foreign lock), yet the smart-assign mutation for requester 1 is
accepted — it returns success instead of a conflict. -/
theorem conflict_gate_cex :
    lockedByOther lockedTask 1 = true
  ∧ lockAge 0 lockedTask < editTimeout
  ∧ smartAssign 1 [7] exampleLoad lockedTask
      = .ok { lockedTask with
              assignedTo := 7, lastModifiedBy := some 1, version := 2 } :=
  ⟨rfl, by decide, rfl⟩

/-- C2 amended: the lock-conflict check guards only the update endpoint —
update is rejected with `LockConflict` while the task is locked by a
different user with an unexpired lock, but smart-assign proceeds to
success under the same live foreign lock, and the reorder endpoint always
reports success. -/
theorem conflict_gate_amended (now : Int) (userId : Nat) (t : Task)
    (e : Nat) (ts : Int)
    (h1 : t.isBeingEdited = true) (h2 : t.editedBy = some e) (h3 : e ≠ userId)
    (h4 : t.editStartTime = some ts) (h5 : now - ts < editTimeout) :
    (∀ titles u, updateTask now userId titles u t = .error .lockConflict)
  ∧ (∀ users load, users ≠ [] →
        ∃ t', smartAssign userId users load t = .ok t')
  ∧ (∀ username items tasks log,
        (reorderEndpoint userId username items tasks log).2.2 = true) := by
  refine ⟨?_, ?_, ?_⟩
  · intro titles u
    simp [updateTask, lockedByOther, lockAge, h1, h2, h3, h4, h5]
  · intro users load hne
    exact smartAssign_ok_of_nonempty userId users load t hne
  · intro username items tasks log
    rfl

/-- C2 witness: the amended statement at a concrete locked task. -/
theorem conflict_gate_witness :
    updateTask 1000 1 [] {} lockedTask = .error .lockConflict :=
  (conflict_gate_amended 1000 1 lockedTask 2 0 rfl rfl (by decide) rfl
    (by decide)).1 [] {}

/-- C3 counterexample: an accepted update whose body carries `version:
100` jumps the stored version from 1 to 101, not to 2 — the body value is
copied by the mass-assignment loop before the increment. -/
theorem version_payload_cex :
    plainTask.version = 1
  ∧ (updateTask 0 1 [] { version := some 100 } plainTask).toOption.map Task.version
      = some 101 :=
  ⟨rfl, rfl⟩

/-- C3 amended: on an accepted update the new version is (the version
value supplied in the body, if any, otherwise the stored version) plus 1 —
so exactly stored + 1 whenever the body does not carry a `version` key —
and smart-assign and each reorder write increment by exactly 1. -/
theorem version_increment_amended (now : Int) (userId : Nat)
    (titles : List String) (u : UpdatePayload) (t : Task) :
    (∀ t', updateTask now userId titles u t = .ok t' →
        t'.version = u.version.getD t.version + 1)
  ∧ (u.version = none → ∀ t', updateTask now userId titles u t = .ok t' →
        t'.version = t.version + 1)
  ∧ (∀ users load t', smartAssign userId users load t = .ok t' →
        t'.version = t.version + 1)
  ∧ (∀ item : ReorderItem, t.id = item.id →
        (reorderOne userId item t).version = t.version + 1) := by
  refine ⟨?_, ?_, ?_, ?_⟩
  · intro t' hok
    rw [updateTask_ok_eq now userId titles u t t' hok]
    simp [clearLock, applyUpdates]
  · intro hnone t' hok
    rw [updateTask_ok_eq now userId titles u t t' hok]
    simp [clearLock, applyUpdates, hnone]
  · intro users load t' hok
    obtain ⟨sel, heq⟩ := smartAssign_ok_eq userId users load t t' hok
    rw [heq]
  · intro item hid
    simp [reorderOne, hid]

/-- C3 witness: the amended statement at concrete inputs — a reorder write
and a smart-assign on `plainTask`, both landing on version 2. -/
theorem version_increment_witness :
    (reorderOne 1 ⟨11, Status.done, 5⟩ plainTask).version = plainTask.version + 1
  ∧ ({ plainTask with
       assignedTo := 1, lastModifiedBy := some 1,
       version := plainTask.version + 1 } : Task).version = plainTask.version + 1 :=
  ⟨(version_increment_amended 0 1 [] {} plainTask).2.2.2 ⟨11, Status.done, 5⟩ rfl,
   (version_increment_amended 0 1 [] {} plainTask).2.2.1 [1] exampleLoad _ rfl⟩

/-- C6 counterexample: an accepted update whose body names `createdBy`
overwrites it — `createdBy` is not immutable against the payload. -/
theorem createdBy_mutable_cex :
    plainTask.createdBy = 9
  ∧ (updateTask 0 1 [] { createdBy := some 42 } plainTask).toOption.map Task.createdBy
      = some 42 :=
  ⟨rfl, rfl⟩

/-- C6 amended: an accepted update leaves unchanged exactly the model
fields the body does not name — id always, and title, description,
status, priority, assignedTo, order and createdBy when absent from the
body — while version, lastModifiedBy and the lock fields are always
rewritten by the endpoint; `createdBy` is overwritten whenever the body
supplies it. -/
theorem update_frame_amended (now : Int) (userId : Nat) (titles : List String)
    (u : UpdatePayload) (t t' : Task)
    (hok : updateTask now userId titles u t = .ok t') :
    t'.id = t.id
  ∧ (u.title = none → t'.title = t.title)
  ∧ (u.description = none → t'.description = t.description)
  ∧ (u.status = none → t'.status = t.status)
  ∧ (u.priority = none → t'.priority = t.priority)
  ∧ (u.assignedTo = none → t'.assignedTo = t.assignedTo)
  ∧ (u.order = none → t'.order = t.order)
  ∧ (u.createdBy = none → t'.createdBy = t.createdBy)
  ∧ (∀ v, u.createdBy = some v → t'.createdBy = v)
  ∧ t'.version = u.version.getD t.version + 1
  ∧ t'.lastModifiedBy = some userId
  ∧ t'.isBeingEdited = false ∧ t'.editedBy = none ∧ t'.editStartTime = none := by
  rw [updateTask_ok_eq now userId titles u t t' hok]
  refine ⟨rfl, ?_, ?_, ?_, ?_, ?_, ?_, ?_, ?_, ?_, rfl, rfl, rfl, rfl⟩
  case refine_8 => intro v h; simp [clearLock, applyUpdates, h]
  case refine_9 => simp [clearLock, applyUpdates]
  all_goals intro h
  all_goals simp [clearLock, applyUpdates, h]

/-- C6 witness: the amended statement at a concrete accepted update that
names only the priority field. -/
theorem update_frame_witness :
    (clearLock { applyUpdates { priority := some Priority.high } plainTask with
                 lastModifiedBy := some 1,
                 version := (applyUpdates { priority := some Priority.high }
                     plainTask).version + 1 }).createdBy = plainTask.createdBy :=
  (update_frame_amended 0 1 [] { priority := some Priority.high } plainTask _
    rfl).2.2.2.2.2.2.2.1 rfl

/-- C4 counterexample: user 1 holds the lock on `lockedTask1` and
disconnects; the disconnect handler leaves the board — including the lock
fields of `lockedTask1` — completely unchanged, so the lock is not
cleared. -/
theorem disconnect_cex :
    lockedTask1 ∈ discState.tasks
  ∧ lockedTask1.editedBy = some 1
  ∧ lockedTask1.isBeingEdited = true
  ∧ (handleDisconnect discState 1).1.tasks = discState.tasks
  ∧ lockedTask1 ∈ (handleDisconnect discState 1).1.tasks :=
  ⟨by decide, rfl, rfl, rfl, by decide⟩

/-- C4 amended: when a connection disconnects, a `user_offline` and an
`edit_ended` event are delivered to every remaining connection and nothing
is delivered to the disconnecting user, the user is dropped from the
presence registry — but the task store, including the lock fields of any
task the user was editing, is left untouched (locks are only released by
the periodic sweep or the timeout checks). -/
theorem disconnect_amended (s : SocketState) (userId : Nat) :
    (handleDisconnect s userId).1.tasks = s.tasks
  ∧ (handleDisconnect s userId).1.connectedUsers
      = s.connectedUsers.filter (fun c => c ≠ userId)
  ∧ (∀ c ∈ s.connectedUsers, c ≠ userId →
        ((c, SEvent.userOffline) ∈ (handleDisconnect s userId).2
         ∧ (c, SEvent.editEnded) ∈ (handleDisconnect s userId).2))
  ∧ (∀ e : SEvent, (userId, e) ∉ (handleDisconnect s userId).2) := by
  refine ⟨rfl, rfl, ?_, ?_⟩
  · intro c hc hne
    have hcf : c ∈ s.connectedUsers.filter (fun x => x ≠ userId) := by
      rw [List.mem_filter]
      exact ⟨hc, by simpa using hne⟩
    have hcf2 : c ∈ (s.connectedUsers.filter
        (fun x => x ≠ userId)).filter (fun x => x ≠ userId) := by
      rw [List.mem_filter]
      exact ⟨hcf, by simpa using hne⟩
    constructor
    · simp only [handleDisconnect, List.mem_append]
      exact Or.inl (List.mem_map_of_mem _ hcf2)
    · simp only [handleDisconnect, List.mem_append]
      exact Or.inr (List.mem_map_of_mem _ hcf2)
  · intro e hmem
    simp only [handleDisconnect, broadcastEmit, List.mem_append, List.mem_map,
      List.mem_filter] at hmem
    rcases hmem with ⟨x, ⟨⟨_, hxne⟩, hxeq⟩⟩ | ⟨x, ⟨⟨_, hxne⟩, hxeq⟩⟩ <;>
      · simp only [decide_eq_true_eq] at hxne
        exact hxne (congrArg Prod.fst hxeq)

/-- C4 witness: the amended statement on `discState` — user 2 observes
both events after user 1 disconnects, and nothing echoes to user 1. -/
theorem disconnect_witness :
    (2, SEvent.userOffline) ∈ (handleDisconnect discState 1).2
  ∧ (2, SEvent.editEnded) ∈ (handleDisconnect discState 1).2 :=
  (disconnect_amended discState 1).2.2.1 2 (by decide) (by decide)

/-- C5 counterexample: the `conflict_detected` handler uses `io.emit`, so
with connections 1 and 2 the re-broadcast of a `conflict_detected` sent by
connection 1 is delivered back to connection 1 itself. -/
theorem no_echo_cex :
    (1, SEvent.conflictDetected) ∈
      handleClientEvent [1, 2] 1 SEvent.conflictDetected := by
  decide

/-- C5 amended: every inbound broadcast event except `conflict_detected`
is delivered to every other active connection and never echoed to the
sender; `conflict_detected` alone is delivered to every active connection
including the sender. -/
theorem no_echo_amended (conns : List Nat) (sender : Nat) (e : SEvent) :
    (e ≠ SEvent.conflictDetected →
        ((sender, e) ∉ handleClientEvent conns sender e
         ∧ ∀ c ∈ conns, c ≠ sender →
             (c, e) ∈ handleClientEvent conns sender e))
  ∧ (e = SEvent.conflictDetected →
        handleClientEvent conns sender e = conns.map (fun c => (c, e))) := by
  constructor
  · intro hne
    have hb : handleClientEvent conns sender e = broadcastEmit conns sender e := by
      cases e <;> first | rfl | exact absurd rfl hne
    rw [hb]
    constructor
    · intro hmem
      simp only [broadcastEmit, List.mem_map, List.mem_filter] at hmem
      rcases hmem with ⟨x, ⟨⟨_, hxne⟩, hxeq⟩⟩
      simp only [decide_eq_true_eq] at hxne
      exact hxne (congrArg Prod.fst hxeq)
    · intro c hc hcne
      have hcf : c ∈ conns.filter (fun x => x ≠ sender) := by
        rw [List.mem_filter]
        exact ⟨hc, by simpa using hcne⟩
      exact List.mem_map_of_mem _ hcf
  · intro he
    subst he
    rfl

/-- C5 witness: the amended statement with connections 1 and 2 — a
`task_updated` from connection 1 reaches 2 and never 1, and a
`conflict_detected` goes to the full connection list. -/
theorem no_echo_witness :
    (1, SEvent.taskUpdated) ∉ handleClientEvent [1, 2] 1 SEvent.taskUpdated
  ∧ (2, SEvent.taskUpdated) ∈ handleClientEvent [1, 2] 1 SEvent.taskUpdated
  ∧ handleClientEvent [1, 2] 1 SEvent.conflictDetected
      = [1, 2].map (fun c => (c, SEvent.conflictDetected)) :=
  ⟨((no_echo_amended [1, 2] 1 SEvent.taskUpdated).1 (by decide)).1,
   ((no_echo_amended [1, 2] 1 SEvent.taskUpdated).1 (by decide)).2 2
     (by decide) (by decide),
   (no_echo_amended [1, 2] 1 SEvent.conflictDetected).2 rfl⟩

theorem sweep_count_zero_of_not_stale (now : Int) (i : Nat) :
    ∀ tasks : List Task, (∀ t ∈ tasks, t.id = i → isStale now t = false) →
      ((sweep now tasks).2.count (Emitted.editSessionExpired i)) = 0 := by
  intro tasks
  induction tasks with
  | nil => intro _; rfl
  | cons hd rest ih =>
      intro hyp
      have hrest : ∀ t ∈ rest, t.id = i → isStale now t = false :=
        fun t ht => hyp t (List.mem_cons_of_mem hd ht)
      have htail := ih hrest
      simp only [sweep] at htail
      by_cases hs : isStale now hd
      · have hne : hd.id ≠ i := by
          intro habs
          rw [hyp hd (List.mem_cons_self hd rest) habs] at hs
          exact Bool.false_ne_true hs
        simp [sweep, List.filter_cons, hs, List.count_cons, hne, htail]
      · simp [sweep, List.filter_cons, hs, htail]

/-- C7: the sweep force-clears the lock of every task whose lock is older
than 5 minutes — e.g. one locked 301 seconds ago — and emits exactly one
`edit_session_expired` event for that task, with no client involvement;
a task locked for less than 5 minutes is left untouched and gets no
event. -/
theorem sweep_spec (now : Int) (tasks : List Task) (t : Task) (ts : Int)
    (hmem : t ∈ tasks) (hids : (tasks.map Task.id).Nodup)
    (hlock : t.isBeingEdited = true) (hts : t.editStartTime = some ts) :
    (ts + staleTimeout < now →
        clearLock t ∈ (sweep now tasks).1
        ∧ ((sweep now tasks).2.count (Emitted.editSessionExpired t.id)) = 1)
  ∧ (now - ts < staleTimeout →
        t ∈ (sweep now tasks).1
        ∧ ((sweep now tasks).2.count (Emitted.editSessionExpired t.id)) = 0) := by
  constructor
  · intro hold
    have hstale : isStale now t = true := by
      simp only [isStale, hlock, hts, Bool.true_and]
      simpa using by omega
    constructor
    · have hm : (if isStale now t then clearLock t else t) ∈ (sweep now tasks).1 := by
        simp only [sweep]
        exact List.mem_map_of_mem _ hmem
      simpa [hstale] using hm
    · exact sweep_count_one now tasks t hmem hids hstale
  · intro hfresh
    have hnotstale : isStale now t = false := by
      simp only [isStale, hlock, hts, Bool.true_and]
      simpa using by omega
    constructor
    · have hm : (if isStale now t then clearLock t else t) ∈ (sweep now tasks).1 := by
        simp only [sweep]
        exact List.mem_map_of_mem _ hmem
      simpa [hnotstale] using hm
    · refine sweep_count_zero_of_not_stale now t.id tasks ?_
      intro t2 ht2 hid2
      have : t2 = t := List.inj_on_of_nodup_map hids ht2 hmem hid2
      rw [this]
      exact hnotstale

/-- C7 witness: the board `[staleTask, freshTask]` at time 400000 —
`staleTask` (locked 301 s ago) is force-cleared with exactly one
`edit_session_expired` event, `freshTask` (locked 50 s ago) is
untouched with none. -/
theorem sweep_spec_witness :
    (clearLock staleTask ∈ (sweep 400000 [staleTask, freshTask]).1
      ∧ ((sweep 400000 [staleTask, freshTask]).2.count
          (Emitted.editSessionExpired staleTask.id)) = 1)
  ∧ (freshTask ∈ (sweep 400000 [staleTask, freshTask]).1
      ∧ ((sweep 400000 [staleTask, freshTask]).2.count
          (Emitted.editSessionExpired freshTask.id)) = 0) :=
  ⟨(sweep_spec 400000 [staleTask, freshTask] staleTask 99000 (by decide)
      (by decide) rfl rfl).1 (by decide),
   (sweep_spec 400000 [staleTask, freshTask] freshTask 350000 (by decide)
      (by decide) rfl rfl).2 (by decide)⟩

/-- C8: the lock-field coherence invariant (`isLocked=false ⇔
lockedBy=none ⇔ lockAcquiredAt=none`) holds for every task in every board
reachable by any sequence of create, update, smart-assign, reorder,
start-edit, end-edit and sweep requests from a coherent board. -/
theorem lock_coherence_invariant (ops : List Op) (board : List Task)
    (h : ∀ t ∈ board, lockCoherent t) :
    ∀ t ∈ runOps ops board, lockCoherent t := by
  induction ops generalizing board with
  | nil => exact h
  | cons op rest ih =>
      simp only [runOps, List.foldl_cons]
      exact ih (step op board) (step_preserves_lockCoherent op board h)

/-- C8 witness: the invariant after a concrete start-edit on a coherent
one-task board, checked on the resulting locked task. -/
theorem lock_coherence_witness :
    lockCoherent (setLock 1000 1 plainTask) :=
  lock_coherence_invariant [Op.startEditOp 1000 1 11] [plainTask] (by decide)
    (setLock 1000 1 plainTask) (by decide)

/-- C9: `selectAssignee` is the deterministic greedy minimum: on an empty
user set it yields no candidate (and smart-assign fails with
`NoCandidates`); on a non-empty user set it picks a user whose load is
minimal, and every user listed before the winner has a strictly larger
load — so ties go to the first user in input order. -/
theorem selectAssignee_spec (users : List Nat) (load : Nat → Nat) :
    (users = [] →
        selectAssignee users load = none
        ∧ ∀ userId t, smartAssign userId users load t = .error .noCandidates)
  ∧ (users ≠ [] → ∃ w pre post,
        selectAssignee users load = some (w, load w)
        ∧ users = pre ++ w :: post
        ∧ (∀ v ∈ pre, load w < load v)
        ∧ (∀ v ∈ post, load w ≤ load v)) := by
  constructor
  · intro h
    subst h
    exact ⟨rfl, fun _ _ => rfl⟩
  · intro h
    match users with
    | [] => exact absurd rfl h
    | u :: rest =>
        rcases firstMinAux_spec load rest u with ⟨hload, hcase⟩
        have hsel : selectAssignee (u :: rest) load
            = some ((firstMinAux load u (load u) rest).1,
                    load (firstMinAux load u (load u) rest).1) := by
          rw [selectAssignee_cons]
          rw [← hload]
        rcases hcase with ⟨heq, hall⟩ | ⟨pre, post, hsplit, hlt, hpre, hpost⟩
        · refine ⟨(firstMinAux load u (load u) rest).1, [], rest, hsel, ?_, ?_, ?_⟩
          · simp [heq]
          · intro x hx
            exact absurd hx (List.not_mem_nil x)
          · intro x hx
            rw [heq]
            exact hall x hx
        · refine ⟨(firstMinAux load u (load u) rest).1, u :: pre, post, hsel,
            ?_, ?_, hpost⟩
          · rw [List.cons_append, ← hsplit]
          · intro x hx
            rcases List.mem_cons.mp hx with hx | hx
            · rw [hx]
              exact hlt
            · exact hpre x hx

/-- C9 witness: the spec examples — over users A=0, B=1, C=2 with loads
A:2, B:0, C:1 the winner is B with load 0, and on a two-way tie the
first user in input order wins; the empty set yields `NoCandidates`. -/
theorem selectAssignee_spec_witness :
    (∃ w pre post,
        selectAssignee [0, 1, 2] exampleLoad = some (w, exampleLoad w)
        ∧ [0, 1, 2] = pre ++ w :: post
        ∧ (∀ v ∈ pre, exampleLoad w < exampleLoad v)
        ∧ (∀ v ∈ post, exampleLoad w ≤ exampleLoad v))
  ∧ selectAssignee [0, 1, 2] exampleLoad = some (1, 0)
  ∧ selectAssignee [5, 6] (fun _ => 1) = some (5, 1)
  ∧ smartAssign 1 [] exampleLoad plainTask = .error .noCandidates :=
  ⟨(selectAssignee_spec [0, 1, 2] exampleLoad).2 (by decide), rfl, rfl,
   ((selectAssignee_spec [] exampleLoad).1 rfl).2 1 plainTask⟩

/-- C10: the reorder endpoint's activity record carries `taskId: null`
while the Activity schema requires a task id, so `save()` always fails
validation, `logActivity` swallows the failure, and the endpoint still
reports success — an accepted reorder leaves the activity log unchanged. -/
theorem reorder_activity_never_persisted (userId : Nat) (username : String)
    (items : List ReorderItem) (tasks : List Task) (log : List ActivityRecord) :
    activityValid (reorderActivity userId username items.length) = false
  ∧ (reorderEndpoint userId username items tasks log).2.1 = log
  ∧ (reorderEndpoint userId username items tasks log).2.2 = true := by
  refine ⟨rfl, ?_, rfl⟩
  simp [reorderEndpoint, logActivity, activityValid, reorderActivity]
